import Mathlib

/-!
Verification of the hyperspy core claims: a shallow embedding of
`hyperspy/hspy.py`, `hyperspy/io_plugins/netcdf.py` and
`hyperspy/misc/eds/utils.py`, together with spec-level models of the
axis `value2index` mapping and the `multifit` loop whose source files
are not part of this snapshot.
-/

namespace Hyperspy

/-! ### Signals and `create_model` (hspy.py, lines 37-82) -/

/-- A signal object, reduced to what `create_model` inspects: the result
of the `isinstance(signal, EELSSpectrum)` check (true for `EELSSpectrum`
and any subclass). -/
structure Signal where
  isEELSSpectrum : Bool
deriving DecidableEq, Repr

/-- The result of `create_model`: either an `EELSModel` or a generic
`Model`, each remembering the signal and the extra positional and
keyword arguments handed to its constructor. -/
inductive ModelResult (Args Kwargs : Type) where
  | eelsModel (s : Signal) (args : Args) (kwargs : Kwargs)
  | genericModel (s : Signal) (args : Args) (kwargs : Kwargs)
deriving DecidableEq, Repr

/-- The function `create_model(signal, *args, **kwargs)` from `hyperspy/hspy.py`:
dispatches on `isinstance(signal, EELSSpectrum)` and forwards all extra
arguments to the chosen constructor unchanged. -/
def create_model {Args Kwargs : Type} (signal : Signal)
    (args : Args) (kwargs : Kwargs) : ModelResult Args Kwargs :=
  if signal.isEELSSpectrum then
    ModelResult.eelsModel signal args kwargs
  else
    ModelResult.genericModel signal args kwargs

/-- Whether a `ModelResult` is an `EELSModel`. -/
def ModelResult.isEELS {Args Kwargs : Type} :
    ModelResult Args Kwargs → Bool
  | ModelResult.eelsModel _ _ _ => true
  | ModelResult.genericModel _ _ _ => false

/-- The signal stored in a `ModelResult`. -/
def ModelResult.signal {Args Kwargs : Type} :
    ModelResult Args Kwargs → Signal
  | ModelResult.eelsModel s _ _ => s
  | ModelResult.genericModel s _ _ => s

/-- The positional arguments forwarded to the constructor. -/
def ModelResult.args {Args Kwargs : Type} :
    ModelResult Args Kwargs → Args
  | ModelResult.eelsModel _ a _ => a
  | ModelResult.genericModel _ a _ => a

/-- The keyword arguments forwarded to the constructor. -/
def ModelResult.kwargs {Args Kwargs : Type} :
    ModelResult Args Kwargs → Kwargs
  | ModelResult.eelsModel _ _ k => k
  | ModelResult.genericModel _ _ k => k

/-! ### Data axes (`axes_manager` axes, as restored by
`create_model_from_dict`, hspy.py lines 99-111) -/

/-- One calibrated data axis, with the fields the spec's AxisModel
carries. -/
structure DataAxis where
  size : Nat
  index_in_array : Nat
  name : String
  scale : ℚ
  offset : ℚ
  units : String
deriving DecidableEq, Repr

instance : Inhabited DataAxis :=
  ⟨⟨0, 0, "", 0, 0, ""⟩⟩

/-- One entry of `model_dict['navigation_axes']` /
`model_dict['signal_axes']`, reduced to the three fields
`create_model_from_dict` reads from it. -/
structure AxisCalib where
  scale : ℚ
  offset : ℚ
  units : String
deriving DecidableEq, Repr

instance : Inhabited AxisCalib :=
  ⟨⟨0, 0, ""⟩⟩

/-- The per-axis body of the restore loops in `create_model_from_dict`:
`s_axis.scale = d['scale']; s_axis.offset = d['offset'];
s_axis.units = d['units']`. -/
def restoreAxisCalib (a : DataAxis) (d : AxisCalib) : DataAxis :=
  { a with scale := d.scale, offset := d.offset, units := d.units }

/-- One restore loop of `create_model_from_dict`:
`for s_axis, d in zip(axes, dicts): ...` mutates the paired axes in
place; axes beyond the shorter of the two lists are untouched. -/
def restoreAxes (axes : List DataAxis) (dicts : List AxisCalib) :
    List DataAxis :=
  List.zipWith restoreAxisCalib axes dicts ++ axes.drop dicts.length

/-- The axis-calibration part of `create_model_from_dict`: the
navigation-axis loop followed by the signal-axis loop, each an
independent `zip` over its own list pair. -/
def create_model_axes_restore
    (navAxes sigAxes : List DataAxis)
    (navDicts sigDicts : List AxisCalib) :
    List DataAxis × List DataAxis :=
  (restoreAxes navAxes navDicts, restoreAxes sigAxes sigDicts)

/-! ### Components and the `create_model_from_dict` component loop
(hspy.py lines 119-130) -/

/-- One entry of `model_dict['components']`, with the fields the loop
reads. -/
structure ComponentDictEntry where
  id_name : String
  element : String
  subshell : String
  gos : String
  name : String
deriving DecidableEq, Repr

/-- A reconstructed component: the class chosen via
`getattr(components, _id_name)`, the constructor arguments (only the
`EELSCLEdge` branch passes any), and the `name` assigned after
construction. -/
structure Component where
  id_name : String
  ctorLabel : String
  ctorGOS : Option String
  name : String
deriving DecidableEq, Repr

/-- The body of the component loop in `create_model_from_dict`: build
one component from one dictionary entry and set its name. -/
def mkComponent (e : ComponentDictEntry) : Component :=
  if e.id_name = "EELSCLEdge" then
    { id_name := e.id_name
      ctorLabel := e.element ++ "_" ++ e.subshell
      ctorGOS := some e.gos
      name := e.name }
  else
    { id_name := e.id_name
      ctorLabel := ""
      ctorGOS := none
      name := e.name }

/-- The component loop of `create_model_from_dict`:
`for _component in model_dict['components']: ...; model.append(component)`,
starting from the model's initial component list. -/
def appendComponents (initial : List Component)
    (entries : List ComponentDictEntry) : List Component :=
  entries.foldl (fun m e => m ++ [mkComponent e]) initial

/-! ### Axis index/value mapping (spec-modelled: `hyperspy/axes.py` is
not part of this source snapshot) -/

/-- Round half up to the nearest integer, computable on `ℚ`; agrees
with Mathlib's `round` (proved in `qround_eq_round`). -/
def qround (x : ℚ) : ℤ := Rat.floor (x + 1/2)

/-- The mapping `value_at(index)` of an axis: `offset + index*scale` (spec section
4.1, also the calibration used by `TestAlignTools.setUp`). -/
def value_at (a : DataAxis) (i : Nat) : ℚ :=
  a.offset + i * a.scale

/-- Modelled from the spec: `DataAxis.value2index` lives in
`hyperspy/axes.py`, which is absent from this snapshot (only the tests
in `test_1D_tools.py` call it). The spec says: inverse mapping, rounds
to the nearest valid index; clamps to `[0, size-1]` when the value is
outside the axis range; never raises. -/
def value2index (a : DataAxis) (v : ℚ) : Nat :=
  (max 0 (min ((a.size : ℤ) - 1) (qround ((v - a.offset) / a.scale)))).toNat

/-! ### The multifit loop (spec-modelled: `hyperspy/model.py` is not
part of this source snapshot) -/

/-- Per-coordinate fit record: the spec's FitState
`{parameter_values, converged, chisq}`. -/
structure FitState (P : Type) where
  params : P
  converged : Bool
  chisq : ℚ
deriving DecidableEq, Repr

/-- Modelled from the spec: `Model.multifit` lives in
`hyperspy/model.py`, which is absent from this snapshot. The spec says:
iterate all navigation coordinates in the declared order, hot-starting
each fit from the previous coordinate's retained parameter values;
record a FitState per coordinate; a `Failed` (non-converged) outcome is
recorded as data and iteration continues — it is never surfaced as a
thrown exception (the model is a total function). -/
def multifit {P C : Type} (fitOne : P → C → FitState P) (start : P)
    (coords : List C) : List (C × FitState P) :=
  (coords.foldl
    (fun (acc : List (C × FitState P) × P) c =>
      let st := fitOne acc.2 c
      (acc.1 ++ [(c, st)], st.params))
    ([], start)).1

/-! ### `electron_range` (misc/eds/utils.py, lines 52-88) -/

/-- The element database rows `electron_range` reads (`density`, `Z`,
`A`); the database module is outside this snapshot, so it is an
abstract total lookup. -/
structure ElemData where
  density : ℚ
  Z : ℚ
  A : ℚ
deriving DecidableEq, Repr

/-- The function `electron_range(element, beam_energy, rho=None, tilt=0)` from
`hyperspy/misc/eds/utils.py`. Python local-variable semantics are made
explicit: `rho`, `Z` and `A` are `Option`-valued locals; the
`if rho is None` branch binds all three, the other branch binds only
`rho`; the return expression reads all three and a read of an unbound
local raises `NameError` (modelled as `Except.error`). The float
operations `np.power` and `math.cos(math.radians(.))` are abstract
parameters, irrelevant to which branch is taken. -/
def electron_range (pow : ℚ → ℚ → ℚ) (cosdeg : ℚ → ℚ)
    (db : String → ElemData) (element : String) (beam_energy : ℚ)
    (rho0 : Option ℚ) (tilt : ℚ) : Except String ℚ :=
  let locals : Option ℚ × Option ℚ × Option ℚ :=
    match rho0 with
    | none => (some (db element).density, some (db element).Z,
               some (db element).A)
    | some r => (some r, none, none)
  match locals with
  | (some rho, some z, some a) =>
      Except.ok (69/2500 * a / pow z (89/100) / rho *
        pow beam_energy (167/100) * cosdeg tilt)
  | _ => Except.error "NameError"

/-! ### Composition conversion (misc/eds/utils.py, lines 130-152) -/

/-- The `tot` accumulator of `atomic_to_weight`: the loop
`tot += compositions[i]*A_i`. `A` is the `elements_db[element]['A']`
lookup. -/
def atomic_to_weight_tot (A : String → ℚ) (elements : List String)
    (compositions : List ℚ) : ℚ :=
  (List.zipWith (fun e c => c * A e) elements compositions).sum

/-- The function `atomic_to_weight(elements, compositions)`: the accumulation loop
followed by the list of `compositions[i]*A_i/tot`. -/
def atomic_to_weight (A : String → ℚ) (elements : List String)
    (compositions : List ℚ) : List ℚ :=
  List.zipWith
    (fun e c => c * A e / atomic_to_weight_tot A elements compositions)
    elements compositions

/-- The `tot` accumulator of `weigth_to_atomic`: the loop
`tot += compositions[i]/A_i`. -/
def weigth_to_atomic_tot (A : String → ℚ) (elements : List String)
    (compositions : List ℚ) : ℚ :=
  (List.zipWith (fun e c => c / A e) elements compositions).sum

/-- The function `weigth_to_atomic(elements, compositions)`: the accumulation loop
followed by the list of `compositions[i]/A_i/tot`. -/
def weigth_to_atomic (A : String → ℚ) (elements : List String)
    (compositions : List ℚ) : List ℚ :=
  List.zipWith
    (fun e c => c / A e / weigth_to_atomic_tot A elements compositions)
    elements compositions

/-! ### The netCDF EELSLab-0.1 reader (io_plugins/netcdf.py,
lines 150-200) -/

/-- A value held in the reader's `calibration_dict`: netCDF attributes
are dynamically typed (the scale/origin keys hold numbers, the units
keys strings). -/
inductive NCVal where
  | num (q : ℚ)
  | str (s : String)
deriving DecidableEq, Repr

/-- One entry of the reader's `axes` list: a Python dict with exactly
the keys `size`, `index_in_array`, `name`, `scale`, `offset`,
`units`. -/
structure NCAxisDict where
  size : Nat
  index_in_array : Nat
  name : String
  scale : NCVal
  offset : NCVal
  units : NCVal
deriving DecidableEq, Repr

instance : Inhabited NCAxisDict :=
  ⟨⟨0, 0, "", NCVal.num 0, NCVal.num 0, NCVal.str ""⟩⟩

/-- Python's `l[start:]` slice, including the negative-`start` case
(`l[-k:]` keeps the last `k` elements). -/
def pySliceFrom {α : Type} (start : Int) (l : List α) : List α :=
  if 0 ≤ start then l.drop start.toNat
  else l.drop (l.length - (-start).toNat)

/-- The list comprehension `[calibration_dict[key] for key in keys]`:
keys are looked up left to right and the first missing key aborts the
whole comprehension (Python raises `KeyError` there). -/
def lookupAll (cal : String → Option NCVal) :
    List String → Option (List NCVal)
  | [] => some []
  | k :: ks =>
      match cal k with
      | none => none
      | some v =>
          match lookupAll cal ks with
          | none => none
          | some vs => some (v :: vs)

/-- The reader's `try: xs = [calibration_dict[key] for key in keys]
except KeyError: xs = fallback` pattern: a single missing key makes the
whole group fall back. -/
def tryLookupGroup (cal : String → Option NCVal) (keys : List String)
    (fallback : List NCVal) : List NCVal :=
  match lookupAll cal keys with
  | some vs => vs
  | none => fallback

/-- The reader's `record_by` normalisation (netcdf.py line 151):
`'image' if original_parameters['record_by'] == 'Image' else
'spectrum'`. -/
def ncRecordBy (raw : String) : String :=
  if raw = "Image" then "image" else "spectrum"

/-- The axis-name list of the chosen branch (before the `[3-dim:]`
slice). -/
def ncNames (record_by : String) : List String :=
  if record_by = "image" then ["Z", "Y", "X"] else ["Y", "X", "Energy"]

/-- The `scaleskeys` list of the chosen branch. -/
def ncScaleKeys (record_by : String) : List String :=
  if record_by = "image" then ["zscale", "yscale", "xscale"]
  else ["yscale", "xscale", "energyscale"]

/-- The `originskeys` list of the chosen branch. -/
def ncOriginKeys (record_by : String) : List String :=
  if record_by = "image" then ["zorigin", "yorigin", "xorigin"]
  else ["yorigin", "xorigin", "energyorigin"]

/-- The `unitskeys` list of the chosen branch. -/
def ncUnitsKeys (record_by : String) : List String :=
  if record_by = "image" then ["zunits", "yunits", "xunits"]
  else ["yunits", "xunits", "energyunits"]

/-- The parameter-mapping half of `nc_hyperspy_reader_0dot1`
(netcdf.py lines 150-188), from the `record_by` normalisation to the
`axes` list. `shape0` is the shape of the raw `data_cube` (the data is
transposed before the axes are built, so axis sizes come from the
reversed shape); `cal` is the `calibration_dict` assembled from the
file's attributes. Python raises `IndexError` where `getD` pads; for
the accepted files (`dim ≤ 3`) no access is out of bounds. The `units`
fallback list is the unsliced `['','','']` exactly as in the source. -/
def ncAxes (record_by_raw : String) (shape0 : List Nat)
    (cal : String → Option NCVal) : List NCAxisDict :=
  let record_by := ncRecordBy record_by_raw
  let dim : Int := shape0.length
  let names := pySliceFrom (3 - dim) (ncNames record_by)
  let shape := shape0.reverse
  let scales := tryLookupGroup cal
    (pySliceFrom (3 - dim) (ncScaleKeys record_by))
    (pySliceFrom (3 - dim) [NCVal.num 1, NCVal.num 1, NCVal.num 1])
  let origins := tryLookupGroup cal
    (pySliceFrom (3 - dim) (ncOriginKeys record_by))
    (pySliceFrom (3 - dim) [NCVal.num 0, NCVal.num 0, NCVal.num 0])
  let units := tryLookupGroup cal
    (pySliceFrom (3 - dim) (ncUnitsKeys record_by))
    [NCVal.str "", NCVal.str "", NCVal.str ""]
  (List.range shape0.length).map fun i =>
    { size := shape.getD i 0
      index_in_array := i
      name := names.getD i ""
      scale := scales.getD i (NCVal.num 0)
      offset := origins.getD i (NCVal.num 0)
      units := units.getD i (NCVal.str "") }

/-! ## Helper lemmas -/

/-- The append-loop of `create_model_from_dict` as a map. -/
theorem appendComponents_eq_map (initial : List Component)
    (entries : List ComponentDictEntry) :
    appendComponents initial entries = initial ++ entries.map mkComponent := by
  induction entries generalizing initial with
  | nil => simp [appendComponents]
  | cons e es ih =>
      unfold appendComponents at ih ⊢
      simp [List.foldl_cons, ih]

/-- Building a component keeps the entry's name whichever branch is taken. -/
theorem mkComponent_name (e : ComponentDictEntry) :
    (mkComponent e).name = e.name := by
  unfold mkComponent
  split <;> rfl

/-- Index-wise description of one restore loop of
`create_model_from_dict`. -/
theorem restoreAxes_getD (axes : List DataAxis) (dicts : List AxisCalib)
    (i : Nat) :
    (restoreAxes axes dicts).getD i default =
      if i < axes.length then
        (if i < dicts.length then
          restoreAxisCalib (axes.getD i default) (dicts.getD i default)
        else axes.getD i default)
      else default := by
  induction axes generalizing dicts i with
  | nil => simp [restoreAxes]
  | cons a as ih =>
      cases dicts with
      | nil =>
          cases i with
          | zero => simp [restoreAxes]
          | succ n =>
              simp only [restoreAxes, List.zipWith_nil_right,
                List.length_nil, Nat.le_zero, List.drop_zero,
                List.nil_append, List.getD_cons_succ, List.length_cons,
                Nat.succ_lt_succ_iff]
              by_cases h : n < as.length
              · simp [h]
              · simp [h, List.getElem?_eq_none (Nat.le_of_not_lt h)]
      | cons d ds =>
          have hstep : restoreAxes (a :: as) (d :: ds) =
              restoreAxisCalib a d :: restoreAxes as ds := by
            simp [restoreAxes]
          cases i with
          | zero => simp [hstep]
          | succ n =>
              simp only [hstep, List.getD_cons_succ, ih, List.length_cons,
                Nat.succ_lt_succ_iff]

/-- One restore loop keeps the axis-list length. -/
theorem restoreAxes_length (axes : List DataAxis)
    (dicts : List AxisCalib) :
    (restoreAxes axes dicts).length = axes.length := by
  simp [restoreAxes]
  omega

/-! ## Claims -/

/-- C1: for every signal passed to `create_model`, the returned model is
an EELSModel exactly when the signal is an instance of `EELSSpectrum`,
and otherwise a generic Model; the extra positional and keyword
arguments are forwarded unchanged to the chosen constructor. -/
theorem create_model_dispatch {Args Kwargs : Type} (signal : Signal)
    (args : Args) (kwargs : Kwargs) :
    (create_model signal args kwargs).isEELS = signal.isEELSSpectrum
    ∧ (create_model signal args kwargs).signal = signal
    ∧ (create_model signal args kwargs).args = args
    ∧ (create_model signal args kwargs).kwargs = kwargs := by
  unfold create_model
  cases h : signal.isEELSSpectrum <;>
    simp [h, ModelResult.isEELS, ModelResult.signal, ModelResult.args,
      ModelResult.kwargs]

/-- C5: `create_model_from_dict` appends exactly one component per entry
of `model_dict['components']`, in the listed order, and each appended
component's name equals the entry's `name` field: the final component
list is the initial list followed by one component per entry, whose
names are the entries' names in order. -/
theorem create_model_from_dict_components (initial : List Component)
    (entries : List ComponentDictEntry) :
    appendComponents initial entries = initial ++ entries.map mkComponent
    ∧ (appendComponents initial entries).length
        = initial.length + entries.length
    ∧ (entries.map mkComponent).map Component.name
        = entries.map ComponentDictEntry.name := by
  refine ⟨appendComponents_eq_map initial entries, ?_, ?_⟩
  · rw [appendComponents_eq_map]
    simp
  · simp [mkComponent_name]

/-- C6: when `create_model_from_dict` restores axis calibration it
overwrites, for each navigation and each signal axis paired with a
dictionary entry, only the `scale`, `offset` and `units` fields (taken
from that entry); `size`, `name` and `index_in_array` are unchanged on
every axis, and axes without a dictionary entry are untouched
entirely. -/
theorem create_model_from_dict_calibration
    (navAxes sigAxes : List DataAxis)
    (navDicts sigDicts : List AxisCalib) :
    ((create_model_axes_restore navAxes sigAxes navDicts sigDicts).1.length
        = navAxes.length
      ∧ (create_model_axes_restore navAxes sigAxes navDicts
          sigDicts).2.length = sigAxes.length)
    ∧ (∀ i : Nat,
        ((create_model_axes_restore navAxes sigAxes navDicts
            sigDicts).1.getD i default).size = (navAxes.getD i default).size
        ∧ ((create_model_axes_restore navAxes sigAxes navDicts
            sigDicts).1.getD i default).name = (navAxes.getD i default).name
        ∧ ((create_model_axes_restore navAxes sigAxes navDicts
            sigDicts).1.getD i default).index_in_array
            = (navAxes.getD i default).index_in_array
        ∧ (i < navAxes.length → i < navDicts.length →
            ((create_model_axes_restore navAxes sigAxes navDicts
                sigDicts).1.getD i default).scale
                = (navDicts.getD i default).scale
            ∧ ((create_model_axes_restore navAxes sigAxes navDicts
                sigDicts).1.getD i default).offset
                = (navDicts.getD i default).offset
            ∧ ((create_model_axes_restore navAxes sigAxes navDicts
                sigDicts).1.getD i default).units
                = (navDicts.getD i default).units)
        ∧ (i < navAxes.length → navDicts.length ≤ i →
            (create_model_axes_restore navAxes sigAxes navDicts
              sigDicts).1.getD i default = navAxes.getD i default))
    ∧ (∀ i : Nat,
        ((create_model_axes_restore navAxes sigAxes navDicts
            sigDicts).2.getD i default).size = (sigAxes.getD i default).size
        ∧ ((create_model_axes_restore navAxes sigAxes navDicts
            sigDicts).2.getD i default).name = (sigAxes.getD i default).name
        ∧ ((create_model_axes_restore navAxes sigAxes navDicts
            sigDicts).2.getD i default).index_in_array
            = (sigAxes.getD i default).index_in_array
        ∧ (i < sigAxes.length → i < sigDicts.length →
            ((create_model_axes_restore navAxes sigAxes navDicts
                sigDicts).2.getD i default).scale
                = (sigDicts.getD i default).scale
            ∧ ((create_model_axes_restore navAxes sigAxes navDicts
                sigDicts).2.getD i default).offset
                = (sigDicts.getD i default).offset
            ∧ ((create_model_axes_restore navAxes sigAxes navDicts
                sigDicts).2.getD i default).units
                = (sigDicts.getD i default).units)
        ∧ (i < sigAxes.length → sigDicts.length ≤ i →
            (create_model_axes_restore navAxes sigAxes navDicts
              sigDicts).2.getD i default = sigAxes.getD i default)) := by
  have key : ∀ (axes : List DataAxis) (dicts : List AxisCalib) (i : Nat),
      ((restoreAxes axes dicts).getD i default).size
          = (axes.getD i default).size
      ∧ ((restoreAxes axes dicts).getD i default).name
          = (axes.getD i default).name
      ∧ ((restoreAxes axes dicts).getD i default).index_in_array
          = (axes.getD i default).index_in_array
      ∧ (i < axes.length → i < dicts.length →
          ((restoreAxes axes dicts).getD i default).scale
              = (dicts.getD i default).scale
          ∧ ((restoreAxes axes dicts).getD i default).offset
              = (dicts.getD i default).offset
          ∧ ((restoreAxes axes dicts).getD i default).units
              = (dicts.getD i default).units)
      ∧ (i < axes.length → dicts.length ≤ i →
          (restoreAxes axes dicts).getD i default
              = axes.getD i default) := by
    intro axes dicts i
    rw [restoreAxes_getD]
    by_cases hA : i < axes.length
    · rw [if_pos hA]
      by_cases hD : i < dicts.length
      · rw [if_pos hD]
        exact ⟨rfl, rfl, rfl, fun _ _ => ⟨rfl, rfl, rfl⟩,
          fun _ h2 => absurd hD (by omega)⟩
      · rw [if_neg hD]
        exact ⟨rfl, rfl, rfl, fun _ h2 => absurd h2 hD, fun _ _ => rfl⟩
    · rw [if_neg hA]
      have hdef : axes.getD i default = default :=
        List.getD_eq_default _ _ (Nat.le_of_not_lt hA)
      rw [hdef]
      exact ⟨rfl, rfl, rfl, fun h1 _ => absurd h1 hA,
        fun h1 _ => absurd h1 hA⟩
  exact ⟨⟨restoreAxes_length navAxes navDicts,
          restoreAxes_length sigAxes sigDicts⟩,
    fun i => key navAxes navDicts i,
    fun i => key sigAxes sigDicts i⟩

/-- Rounding is floor of the shifted value. -/
theorem qround_eq_floor (x : ℚ) : qround x = ⌊x + 1/2⌋ := by
  show Rat.floor (x + 1/2) = ⌊x + 1/2⌋
  rw [Rat.floor_def', Rat.floor_def]

/-- The rounding `qround` agrees with Mathlib's `round` on `ℚ`. -/
theorem qround_eq_round (x : ℚ) : qround x = round x := by
  rw [qround_eq_floor, round_eq]

/-- Rounding fixes integers. -/
theorem qround_intCast (n : ℤ) : qround ((n : ℚ)) = n := by
  rw [qround_eq_round]
  exact round_intCast n

/-- Rounding is monotone. -/
theorem qround_le_qround {x y : ℚ} (h : x ≤ y) : qround x ≤ qround y := by
  rw [qround_eq_floor, qround_eq_floor]
  exact Int.floor_mono (by linarith)

/-- The axis of `TestAlignTools.setUp`: the signal axis of a
`Spectrum(np.zeros((10,100)))` after `eaxis.scale = 0.1;
eaxis.offset = -2`. -/
def testAxis : DataAxis :=
  { size := 100
    index_in_array := 1
    name := ""
    scale := 1/10
    offset := -2
    units := "" }

/-- C3: for every axis with nonzero scale and every valid index
`i < size`, the value-to-index mapping inverts the index-to-value
mapping exactly: `value2index (value_at i) = i`, where
`value_at i = offset + i * scale`. -/
theorem value2index_value_at (a : DataAxis) (i : Nat)
    (hscale : a.scale ≠ 0) (hi : i < a.size) :
    value2index a (value_at a i) = i := by
  unfold value2index value_at
  have h1 : (a.offset + (i : ℚ) * a.scale - a.offset) / a.scale = (i : ℚ) := by
    field_simp
  rw [h1]
  have h2 : qround ((i : ℚ)) = (i : ℤ) := by
    have := qround_intCast (i : ℤ)
    push_cast at this
    exact this
  rw [h2]
  omega

/-- C4: for every axis with positive scale and at least one point,
`value2index` is total (always returns an index in `[0, size)`, never
raising); a query value below the axis minimum returns index `0` and a
query value above the axis maximum returns index `size - 1`. -/
theorem value2index_clamps (a : DataAxis) (v : ℚ)
    (hscale : 0 < a.scale) (hsize : 1 ≤ a.size) :
    value2index a v < a.size
    ∧ (v < value_at a 0 → value2index a v = 0)
    ∧ (value_at a (a.size - 1) < v → value2index a v = a.size - 1) := by
  refine ⟨?_, ?_, ?_⟩
  · unfold value2index
    omega
  · intro hlow
    unfold value2index
    have hv : v - a.offset < 0 := by
      unfold value_at at hlow
      push_cast at hlow
      linarith
    have hneg : (v - a.offset) / a.scale < 0 :=
      div_neg_of_neg_of_pos hv hscale
    have hq : qround ((v - a.offset) / a.scale) ≤ 0 := by
      have h0 : qround ((v - a.offset) / a.scale) ≤ qround 0 :=
        qround_le_qround (le_of_lt hneg)
      have : qround (0 : ℚ) = 0 := by
        have := qround_intCast 0
        push_cast at this
        exact this
      omega
    omega
  · intro hhigh
    unfold value2index
    have hcast : (((a.size - 1 : ℕ) : ℚ)) = ((a.size : ℚ) - 1) := by
      have : ((a.size - 1 : ℕ) : ℤ) = (a.size : ℤ) - 1 := by omega
      exact_mod_cast congrArg (fun z : ℤ => (z : ℚ)) this
    have hv : ((a.size : ℚ) - 1) * a.scale < v - a.offset := by
      unfold value_at at hhigh
      rw [hcast] at hhigh
      linarith
    have hdiv : ((a.size : ℚ) - 1) < (v - a.offset) / a.scale := by
      rw [lt_div_iff₀ hscale]
      exact hv
    have hq : (a.size : ℤ) - 1 ≤ qround ((v - a.offset) / a.scale) := by
      have h0 : qround ((((a.size : ℤ) - 1 : ℤ) : ℚ))
          ≤ qround ((v - a.offset) / a.scale) := by
        apply qround_le_qround
        push_cast
        linarith
      rw [qround_intCast] at h0
      exact h0
    omega

/-- The inner foldl of `multifit`, described for an arbitrary starting
accumulator. -/
theorem multifit_fold {P C : Type} (fitOne : P → C → FitState P)
    (coords : List C) (acc : List (C × FitState P)) (p : P) :
    ((coords.foldl
        (fun (acc : List (C × FitState P) × P) c =>
          let st := fitOne acc.2 c
          (acc.1 ++ [(c, st)], st.params))
        (acc, p)).1.map Prod.fst = acc.map Prod.fst ++ coords)
    ∧ ∀ r ∈ (coords.foldl
        (fun (acc : List (C × FitState P) × P) c =>
          let st := fitOne acc.2 c
          (acc.1 ++ [(c, st)], st.params))
        (acc, p)).1, r ∈ acc ∨ ∃ q : P, r.2 = fitOne q r.1 := by
  induction coords generalizing acc p with
  | nil => exact ⟨by simp, fun r hr => Or.inl hr⟩
  | cons c cs ih =>
      have h := ih (acc ++ [(c, fitOne p c)]) (fitOne p c).params
      constructor
      · simpa using h.1
      · intro r hr
        have := h.2 r (by simpa using hr)
        rcases this with hmem | hfit
        · rcases List.mem_append.mp hmem with h1 | h2
          · exact Or.inl h1
          · right
            have : r = (c, fitOne p c) := by simpa using h2
            exact ⟨p, by rw [this]⟩
        · exact Or.inr hfit

/-- C7: a multifit run over all navigation coordinates is total: every
coordinate gets a per-coordinate record, in iteration order, whatever
the per-coordinate fit returns — a Failed (non-converged) outcome is
stored in that coordinate's FitState (each record is exactly the
optimizer's outcome at its own coordinate) and never aborts the
remaining iteration or surfaces as an exception. -/
theorem multifit_never_aborts {P C : Type} (fitOne : P → C → FitState P)
    (start : P) (coords : List C) :
    (multifit fitOne start coords).map Prod.fst = coords
    ∧ (multifit fitOne start coords).length = coords.length
    ∧ ∀ r ∈ multifit fitOne start coords, ∃ q : P, r.2 = fitOne q r.1 := by
  have h := multifit_fold fitOne coords [] start
  refine ⟨by simpa [multifit] using h.1, ?_, ?_⟩
  · have hmap : (multifit fitOne start coords).map Prod.fst = coords := by
      simpa [multifit] using h.1
    calc (multifit fitOne start coords).length
        = ((multifit fitOne start coords).map Prod.fst).length := by simp
      _ = coords.length := by rw [hmap]
  · intro r hr
    have := h.2 r (by simpa [multifit] using hr)
    rcases this with hmem | hfit
    · simp at hmem
    · exact hfit

/-- C8: `electron_range` called with an explicit non-None `rho` always
fails with an unbound-variable error (the atomic number `Z` and mass
`A` are bound only in the `rho is None` branch but read unconditionally
in the returned expression); it succeeds exactly when `rho` is None. -/
theorem electron_range_unbound_locals (pow : ℚ → ℚ → ℚ) (cosdeg : ℚ → ℚ)
    (db : String → ElemData) (element : String) (beam_energy : ℚ)
    (r tilt : ℚ) :
    electron_range pow cosdeg db element beam_energy (some r) tilt
      = Except.error "NameError"
    ∧ ∃ v : ℚ, electron_range pow cosdeg db element beam_energy none tilt
      = Except.ok v := by
  exact ⟨rfl, ⟨_, rfl⟩⟩

/-- Witness for C3 on the axis of `TestAlignTools.setUp`. -/
theorem value2index_value_at_witness :
    value2index testAxis (value_at testAxis 25) = 25 :=
  value2index_value_at testAxis 25 (by norm_num [testAxis])
    (by norm_num [testAxis])

/-- Witness for C4 on the axis of `TestAlignTools.setUp` (axis range is
`[-2, 7.9]`): a query below the minimum yields 0, one above the maximum
yields the last index 99. -/
theorem value2index_clamps_witness :
    value2index testAxis (-3) = 0 ∧ value2index testAxis 20 = 99 := by
  constructor
  · exact (value2index_clamps testAxis (-3) (by norm_num [testAxis])
      (by norm_num [testAxis])).2.1 (by norm_num [testAxis, value_at])
  · have h := (value2index_clamps testAxis 20 (by norm_num [testAxis])
      (by norm_num [testAxis])).2.2 (by norm_num [testAxis, value_at])
    simpa [testAxis] using h

/-- Reading an entry of a map over `List.range`. -/
theorem getD_map_range {α : Type} (n i : Nat) (f : Nat → α) (d : α)
    (h : i < n) : ((List.range n).map f).getD i d = f i := by
  rw [List.getD_eq_getElem _ _ (by simpa using h)]
  simp

/-- A single absent key makes the whole group lookup fail, as the
`except KeyError` in the reader catches the first missing key of the
group. -/
theorem lookupAll_eq_none_of_mem (cal : String → Option NCVal)
    (l : List String) (k : String) (hk : k ∈ l) (h : cal k = none) :
    lookupAll cal l = none := by
  induction l with
  | nil => cases hk
  | cons a as ih =>
      rcases List.mem_cons.mp hk with rfl | hmem
      · simp [lookupAll, h]
      · cases hfa : cal a with
        | none => simp [lookupAll, hfa]
        | some b => simp [lookupAll, hfa, ih hmem]

/-- Reading an entry of a dropped triple of equal elements. -/
theorem getD_drop_triple {α : Type} (x d : α) (k i : Nat)
    (h : i + k < 3) :
    (List.drop k [x, x, x]).getD i d = x := by
  have hk : k < 3 := by omega
  have hi : i < 3 := by omega
  interval_cases k <;> interval_cases i <;> first | rfl | omega

/-- Slicing with a nonnegative start is a plain drop. -/
theorem pySliceFrom_nonneg {α : Type} (s : Int) (l : List α)
    (h : 0 ≤ s) : pySliceFrom s l = l.drop s.toNat := by
  simp [pySliceFrom, h]

/-- C2: for every accepted EELSLab-0.1 file (at most three data
dimensions), the reader's `axes` list has exactly one entry per
dimension of the transposed data array — each entry an `NCAxisDict`
record, whose only fields are `size`, `index_in_array`, `name`,
`scale`, `offset` and `units` — and the `i`-th entry has
`size` equal to the transposed data's shape along dimension `i` and
`index_in_array = i`. -/
theorem ncAxes_structure (record_by_raw : String) (shape0 : List Nat)
    (cal : String → Option NCVal) (hdim : shape0.length ≤ 3) :
    (ncAxes record_by_raw shape0 cal).length = shape0.length
    ∧ ∀ i : Nat, i < shape0.length →
        ((ncAxes record_by_raw shape0 cal).getD i default).size
            = shape0.reverse.getD i 0
        ∧ ((ncAxes record_by_raw shape0 cal).getD i
            default).index_in_array = i := by
  constructor
  · simp [ncAxes]
  · intro i hi
    simp only [ncAxes]
    rw [getD_map_range _ _ _ _ hi]
    exact ⟨rfl, rfl⟩

/-- Witness for C2: a two-dimensional image cube of shape (2,3) with an
empty calibration dictionary; the transposed shape is (3,2). -/
theorem ncAxes_structure_witness :
    (ncAxes "Image" [2, 3] (fun _ => none)).length = 2
    ∧ ((ncAxes "Image" [2, 3] (fun _ => none)).getD 1 default).size = 2
    ∧ ((ncAxes "Image" [2, 3] (fun _ => none)).getD 1
        default).index_in_array = 1 := by
  have h := ncAxes_structure "Image" [2, 3] (fun _ => none) (by norm_num)
  exact ⟨h.1, by simpa using (h.2 1 (by norm_num)).1,
    (h.2 1 (by norm_num)).2⟩

/-- C10: the netCDF reader's calibration fallback is group-wise, not
per-key: if any one scale key of the sliced key list is absent from the
calibration dictionary then every axis's `scale` is the default `1` —
including axes whose own keys are present — and likewise a missing
origin key sends every `offset` to `0` and a missing units key sends
every `units` to the empty string. -/
theorem ncAxes_groupwise_fallback (record_by_raw : String)
    (shape0 : List Nat) (cal : String → Option NCVal)
    (hdim : shape0.length ≤ 3) :
    ((∃ k ∈ pySliceFrom (3 - (shape0.length : Int))
          (ncScaleKeys (ncRecordBy record_by_raw)), cal k = none) →
        ∀ i : Nat, i < shape0.length →
          ((ncAxes record_by_raw shape0 cal).getD i default).scale
            = NCVal.num 1)
    ∧ ((∃ k ∈ pySliceFrom (3 - (shape0.length : Int))
          (ncOriginKeys (ncRecordBy record_by_raw)), cal k = none) →
        ∀ i : Nat, i < shape0.length →
          ((ncAxes record_by_raw shape0 cal).getD i default).offset
            = NCVal.num 0)
    ∧ ((∃ k ∈ pySliceFrom (3 - (shape0.length : Int))
          (ncUnitsKeys (ncRecordBy record_by_raw)), cal k = none) →
        ∀ i : Nat, i < shape0.length →
          ((ncAxes record_by_raw shape0 cal).getD i default).units
            = NCVal.str "") := by
  have hslice : ∀ (x : NCVal) (i : Nat), i < shape0.length →
      (pySliceFrom (3 - (shape0.length : Int)) [x, x, x]).getD i
        (NCVal.num 0) = x := by
    intro x i hi
    rw [pySliceFrom_nonneg _ _ (by omega)]
    apply getD_drop_triple
    omega
  have hsliceD : ∀ (x : NCVal) (i : Nat), i < shape0.length →
      (pySliceFrom (3 - (shape0.length : Int)) [x, x, x]).getD i
        (NCVal.str "") = x := by
    intro x i hi
    rw [pySliceFrom_nonneg _ _ (by omega)]
    apply getD_drop_triple
    omega
  refine ⟨?_, ?_, ?_⟩
  · rintro ⟨k, hk, hnone⟩ i hi
    simp only [ncAxes]
    rw [getD_map_range _ _ _ _ hi]
    show (tryLookupGroup cal _ _).getD i (NCVal.num 0) = NCVal.num 1
    rw [tryLookupGroup, lookupAll_eq_none_of_mem cal _ k hk hnone]
    exact hslice (NCVal.num 1) i hi
  · rintro ⟨k, hk, hnone⟩ i hi
    simp only [ncAxes]
    rw [getD_map_range _ _ _ _ hi]
    show (tryLookupGroup cal _ _).getD i (NCVal.num 0) = NCVal.num 0
    rw [tryLookupGroup, lookupAll_eq_none_of_mem cal _ k hk hnone]
    exact hslice (NCVal.num 0) i hi
  · rintro ⟨k, hk, hnone⟩ i hi
    simp only [ncAxes]
    rw [getD_map_range _ _ _ _ hi]
    show (tryLookupGroup cal _ _).getD i (NCVal.str "") = NCVal.str ""
    rw [tryLookupGroup, lookupAll_eq_none_of_mem cal _ k hk hnone]
    have hi3 : i < 3 := by omega
    interval_cases i <;> rfl

/-- Witness for C10: a (4,5) image whose calibration dictionary holds
`xscale` but no `yscale`; the axis whose own key is present still falls
back to scale 1. -/
theorem ncAxes_groupwise_fallback_witness :
    ((ncAxes "Image" [4, 5]
        (fun k => if k = "xscale" then some (NCVal.num 7) else none)).getD
      1 default).scale = NCVal.num 1 := by
  have h := (ncAxes_groupwise_fallback "Image" [4, 5]
    (fun k => if k = "xscale" then some (NCVal.num 7) else none)
    (by norm_num)).1
  exact h ⟨"yscale", by simp [pySliceFrom, ncScaleKeys, ncRecordBy],
    by simp⟩ 1 (by norm_num)

/-- Dividing each entry of a zipped product list by a constant divides
the sum. -/
theorem zipWith_div_sum (f : String → ℚ → ℚ) (t : ℚ)
    (el : List String) (co : List ℚ) :
    (List.zipWith (fun e c => f e c / t) el co).sum
      = (List.zipWith f el co).sum / t := by
  induction el generalizing co with
  | nil => simp
  | cons e es ih =>
      cases co with
      | nil => simp
      | cons c cs => simp [ih, add_div]

/-- Composing two zips over the same left list. -/
theorem zipWith_zipWith_same (f g : String → ℚ → ℚ)
    (el : List String) (co : List ℚ) :
    List.zipWith f el (List.zipWith g el co)
      = List.zipWith (fun e c => f e (g e c)) el co := by
  induction el generalizing co with
  | nil => simp
  | cons e es ih =>
      cases co with
      | nil => simp
      | cons c cs => simp [ih]

/-- Pointwise-equal zip bodies (on the lists' members) zip equally. -/
theorem zipWith_congr_mem (f g : String → ℚ → ℚ)
    (el : List String) (co : List ℚ)
    (h : ∀ e ∈ el, ∀ c ∈ co, f e c = g e c) :
    List.zipWith f el co = List.zipWith g el co := by
  induction el generalizing co with
  | nil => simp
  | cons e es ih =>
      cases co with
      | nil => simp
      | cons c cs =>
          simp only [List.zipWith_cons_cons]
          rw [h e (List.mem_cons_self e es) c (List.mem_cons_self c cs),
            ih cs fun x hx y hy =>
              h x (List.mem_cons_of_mem e hx) y
                (List.mem_cons_of_mem c hy)]

/-- A zip that ignores its left element is a map over the right list,
when the lists have equal length. -/
theorem zipWith_right_map (f : ℚ → ℚ) (el : List String) (co : List ℚ)
    (hlen : el.length = co.length) :
    List.zipWith (fun _ c => f c) el co = co.map f := by
  induction el generalizing co with
  | nil =>
      cases co with
      | nil => simp
      | cons c cs => simp at hlen
  | cons e es ih =>
      cases co with
      | nil => simp at hlen
      | cons c cs =>
          simp only [List.zipWith_cons_cons, List.map_cons]
          rw [ih cs (by simpa using hlen)]

/-- A zipped sum of pointwise-positive terms over equally long,
non-empty lists is positive. -/
theorem zipWith_sum_pos (f : String → ℚ → ℚ)
    (el : List String) (co : List ℚ)
    (hlen : el.length = co.length) (hne : co ≠ [])
    (h : ∀ e ∈ el, ∀ c ∈ co, 0 < f e c) :
    0 < (List.zipWith f el co).sum := by
  have hnonneg : ∀ (es : List String) (cs : List ℚ),
      (∀ e ∈ es, ∀ c ∈ cs, 0 < f e c) →
      0 ≤ (List.zipWith f es cs).sum := by
    intro es
    induction es with
    | nil => intro cs _; simp
    | cons e es' ih =>
        intro cs hcs
        cases cs with
        | nil => simp
        | cons c cs' =>
            simp only [List.zipWith_cons_cons, List.sum_cons]
            have h1 : 0 < f e c :=
              hcs e (List.mem_cons_self e es') c (List.mem_cons_self c cs')
            have h2 : 0 ≤ (List.zipWith f es' cs').sum :=
              ih cs' fun x hx y hy =>
                hcs x (List.mem_cons_of_mem e hx) y (List.mem_cons_of_mem c hy)
            linarith
  cases el with
  | nil =>
      cases co with
      | nil => exact absurd rfl hne
      | cons c cs => simp at hlen
  | cons e es =>
      cases co with
      | nil => exact absurd rfl hne
      | cons c cs =>
          simp only [List.zipWith_cons_cons, List.sum_cons]
          have h1 : 0 < f e c :=
            h e (List.mem_cons_self e es) c (List.mem_cons_self c cs)
          have h2 : 0 ≤ (List.zipWith f es cs).sum :=
            hnonneg es cs fun x hx y hy =>
              h x (List.mem_cons_of_mem e hx) y (List.mem_cons_of_mem c hy)
          linarith

/-- C9: for every non-empty list of elements with strictly positive
compositions (and positive atomic masses, as in the element database),
the outputs of `atomic_to_weight` and of `weigth_to_atomic` each sum to
1, and `weigth_to_atomic` applied to the output of `atomic_to_weight`
over the same element list returns the original compositions divided by
their sum. -/
theorem composition_roundtrip (A : String → ℚ)
    (elements : List String) (compositions : List ℚ)
    (hlen : elements.length = compositions.length)
    (hne : compositions ≠ [])
    (hpos : ∀ c ∈ compositions, 0 < c)
    (hA : ∀ e ∈ elements, 0 < A e) :
    (atomic_to_weight A elements compositions).sum = 1
    ∧ (weigth_to_atomic A elements compositions).sum = 1
    ∧ weigth_to_atomic A elements
        (atomic_to_weight A elements compositions)
      = compositions.map (fun c => c / compositions.sum) := by
  have hT : 0 < (List.zipWith (fun e c => c * A e) elements
      compositions).sum :=
    zipWith_sum_pos _ _ _ hlen hne fun e he c hc =>
      mul_pos (hpos c hc) (hA e he)
  have hTd : 0 < (List.zipWith (fun e c => c / A e) elements
      compositions).sum :=
    zipWith_sum_pos _ _ _ hlen hne fun e he c hc =>
      div_pos (hpos c hc) (hA e he)
  have hS : 0 < compositions.sum := List.sum_pos _ hpos hne
  refine ⟨?_, ?_, ?_⟩
  · unfold atomic_to_weight
    rw [zipWith_div_sum]
    unfold atomic_to_weight_tot
    exact div_self (ne_of_gt hT)
  · unfold weigth_to_atomic
    rw [zipWith_div_sum]
    unfold weigth_to_atomic_tot
    exact div_self (ne_of_gt hTd)
  · have hTne : atomic_to_weight_tot A elements compositions ≠ 0 := by
      unfold atomic_to_weight_tot
      exact ne_of_gt hT
    have hSne : compositions.sum ≠ 0 := ne_of_gt hS
    have hWT : weigth_to_atomic_tot A elements
        (atomic_to_weight A elements compositions)
        = compositions.sum / atomic_to_weight_tot A elements
            compositions := by
      unfold weigth_to_atomic_tot atomic_to_weight
      have h1 : List.zipWith (fun e c => c / A e) elements
          (List.zipWith
            (fun e c => c * A e /
              atomic_to_weight_tot A elements compositions)
            elements compositions)
          = List.zipWith
            (fun e c =>
              c * A e / atomic_to_weight_tot A elements compositions
                / A e)
            elements compositions :=
        zipWith_zipWith_same _ _ _ _
      have h2 : List.zipWith
            (fun e c =>
              c * A e / atomic_to_weight_tot A elements compositions
                / A e)
            elements compositions
          = List.zipWith
            (fun _ c =>
              c / atomic_to_weight_tot A elements compositions)
            elements compositions := by
        apply zipWith_congr_mem
        intro e he c _
        have hAe : A e ≠ 0 := ne_of_gt (hA e he)
        field_simp
        ring
      rw [h1, h2, zipWith_div_sum (fun _ c => c),
        zipWith_right_map (fun c => c) _ _ hlen]
      simp
    unfold weigth_to_atomic
    rw [hWT]
    unfold atomic_to_weight
    have h3 : List.zipWith
        (fun e c => c / A e /
          (compositions.sum /
            atomic_to_weight_tot A elements compositions))
        elements
        (List.zipWith
          (fun e c => c * A e /
            atomic_to_weight_tot A elements compositions)
          elements compositions)
        = List.zipWith
          (fun e c =>
            c * A e / atomic_to_weight_tot A elements compositions
              / A e /
              (compositions.sum /
                atomic_to_weight_tot A elements compositions))
          elements compositions :=
      zipWith_zipWith_same _ _ _ _
    have h4 : List.zipWith
          (fun e c =>
            c * A e / atomic_to_weight_tot A elements compositions
              / A e /
              (compositions.sum /
                atomic_to_weight_tot A elements compositions))
          elements compositions
        = List.zipWith (fun _ c => c / compositions.sum)
            elements compositions := by
      apply zipWith_congr_mem
      intro e he c _
      have hAe : A e ≠ 0 := ne_of_gt (hA e he)
      field_simp
      ring
    rw [h3, h4]
    exact zipWith_right_map _ _ _ hlen

/-- Witness for C9 with two elements of atomic mass 2 and compositions
1 and 3: the weight fractions are 1/4 and 3/4, both conversions sum to
1 and the round trip returns the normalised input. -/
theorem composition_roundtrip_witness :
    (atomic_to_weight (fun _ => 2) ["a", "b"] [1, 3]).sum = 1
    ∧ (weigth_to_atomic (fun _ => 2) ["a", "b"] [1, 3]).sum = 1
    ∧ weigth_to_atomic (fun _ => 2) ["a", "b"]
        (atomic_to_weight (fun _ => 2) ["a", "b"] [1, 3])
      = List.map (fun c => c / List.sum [1, 3]) [1, 3] :=
  composition_roundtrip (fun _ => 2) ["a", "b"] [1, 3] rfl
    (by simp) (by norm_num) (by norm_num)

end Hyperspy
